import Mathlib

/-! CountDice: counting pips on dice.

A shallow embedding of `src/CountDice.cpp` and the properties of its pipeline.

Conventions of the embedding.

* `cv::Point` is a pair of integers, a contour (`std::vector<cv::Point>`) is a list of points.
* A `double` is a rational number: the program only compares areas with bounds and never does
  arithmetic on them, and the order of finite doubles is the order of the rationals they denote.
* The `int` counters `dotsCount` and `totalsDots` start at zero and are only incremented, so
  they are natural numbers; the embedding describes the runs in which they stay below `2 ^ 31`
  (see `diceLoop_total_le` for a sufficient bound on the two contour lists).
* The unchecked access `dotContour[0]` has no defined result on an empty vector: the functions
  that reach it return `Option`, and `none` stands for a run that performs such an access.
* The image library is not part of the repository.  Its geometric primitives on integer
  points are modelled in the namespace `cv`; its image operations (decoding, colour
  conversion, thresholding, contour tracing) are fields of an environment `Env`, and every
  call with an effect outside the program is recorded, in order, in a log of `Event`s.
-/

namespace CountDice

/-! ## Data model -/

/-- The type `cv::Point`: a point with integer coordinates. -/
structure Point where
  x : Int
  y : Int
deriving DecidableEq, Repr

/-- A contour, `std::vector<cv::Point>`: the ordered points of a closed boundary. -/
abbrev Contour := List Point

/-- The type `cv::Rect`. -/
structure Rect where
  x : Int
  y : Int
  width : Int
  height : Int
deriving DecidableEq, Repr

/-- The first three channels of a `cv::Scalar` colour. -/
structure Scalar where
  v0 : Nat
  v1 : Nat
  v2 : Nat
deriving DecidableEq, Repr

/-! ## Geometric primitives of the image library -/

namespace cv

/-- Modelled from the spec: the loop of `cv::contourArea` (the library is not under `src/`),
"standard polygon-area formula applied to the traced boundary".  It adds the cross product of
each pair of consecutive points to the accumulator `a00`, starting from the pair
(last point, first point). -/
def contourArea.accumulate : List Point → Point → Int → Int
  | [], _, a00 => a00
  | p :: rest, prev, a00 => contourArea.accumulate rest p (a00 + (prev.x * p.y - prev.y * p.x))

/-- Modelled from the spec: `cv::contourArea(contour)` with `oriented = false` (the library is
not under `src/`): zero for an empty contour, otherwise the absolute value of half the
accumulated cross products.  On integer points of an image the library's floating-point
evaluation of this formula is exact. -/
def contourArea (contour : Contour) : ℚ :=
  match contour.getLast? with
  | none => 0
  | some last => |((contourArea.accumulate contour last 0 : Int) : ℚ) * (1 / 2)|

/-- Modelled from the spec: the edge loop of `cv::pointPolygonTest` for integer points and
`measureDist = false` (the library is not under `src/`), a ray-casting test.  `v0` is the
previous vertex, `counter` the number of edges crossed so far; the scan returns `0` as soon as
the point is found on an edge, and at the end `1` for an odd and `-1` for an even number of
crossings. -/
def pointPolygonTest.scan (ip : Point) : List Point → Point → Nat → Int
  | [], _, counter => if counter % 2 = 0 then -1 else 1
  | v :: rest, v0, counter =>
    if (v0.y ≤ ip.y ∧ v.y ≤ ip.y) ∨ (v0.y > ip.y ∧ v.y > ip.y) ∨ (v0.x < ip.x ∧ v.x < ip.x) then
      if ip.y = v.y ∧ (ip.x = v.x ∨ (ip.y = v0.y ∧
          ((v0.x ≤ ip.x ∧ ip.x ≤ v.x) ∨ (v.x ≤ ip.x ∧ ip.x ≤ v0.x)))) then 0
      else pointPolygonTest.scan ip rest v counter
    else
      let dist := (ip.y - v0.y) * (v.x - v0.x) - (ip.x - v0.x) * (v.y - v0.y)
      if dist = 0 then 0
      else
        let dist := if v.y < v0.y then -dist else dist
        pointPolygonTest.scan ip rest v (counter + (if dist > 0 then 1 else 0))

/-- Modelled from the spec: `cv::pointPolygonTest(contour, pt, false)` (the library is not
under `src/`), "strictly-inside means the test's signed result is positive (on-boundary or
outside does not count)": `1` inside, `0` on the boundary, `-1` outside, and `-1` for an
empty contour.  The result, a `double` in the library, is one of these three integers. -/
def pointPolygonTest (contour : Contour) (pt : Point) : Int :=
  match contour.getLast? with
  | none => -1
  | some last => pointPolygonTest.scan pt contour last 0

/-- Modelled from the spec: `cv::boundingRect(points)` (the library is not under `src/`), the
smallest upright rectangle that contains the points; the empty rectangle for no points. -/
def boundingRect (points : Contour) : Rect :=
  match points with
  | [] => ⟨0, 0, 0, 0⟩
  | p :: rest =>
    let xmin := rest.foldl (fun m q => min m q.x) p.x
    let ymin := rest.foldl (fun m q => min m q.y) p.y
    let xmax := rest.foldl (fun m q => max m q.x) p.x
    let ymax := rest.foldl (fun m q => max m q.y) p.y
    ⟨xmin, ymin, xmax - xmin + 1, ymax - ymin + 1⟩

end cv

/-! ## The program -/

/-- The function `FilterContoursByArea` (lines 11-26): the loop over `allContours` appends to
`filtered` every contour whose area is below `maxArea` and above `minArea`. -/
def FilterContoursByArea (allContours : List Contour) (minArea maxArea : ℚ) : List Contour :=
  allContours.foldl
    (fun filtered contour =>
      let area := cv.contourArea contour
      if area < maxArea ∧ area > minArea then filtered ++ [contour] else filtered)
    []

/-- The calls of `main` that act outside the program, with the arguments that vary.  The
font of `putText` is `FONT_HERSHEY_SIMPLEX` and the contour index of `drawContours` is `-1`
(all contours) in every call. -/
inductive Event where
  | print (line : String)
  | imread (filename : String)
  | cvtColor
  | threshold (thresh maxValue : ℚ)
  | findContours
  | putText (text : String) (org : Point) (fontScale : ℚ) (color : Scalar)
  | drawContours (contours : List Contour) (color : Scalar) (thickness : Nat)
  | imwrite (filename : String)
  | namedWindow (winname : String)
  | imshow (winname : String)
  | waitKey (delay : Nat)
deriving DecidableEq

/-- The image operations of the library that `main` calls, over an abstract image type `Mat`.
`imread` is `none` when the returned image has no data. -/
structure Env (Mat : Type) where
  imread : String → Option Mat
  cvtColor : Mat → Mat
  threshold : Mat → ℚ → ℚ → Mat
  findContours : Mat → List Contour

/-- The result of a run of `main`: the value it returns and the calls it made, in order. -/
structure Outcome where
  exitCode : Int
  log : List Event
deriving DecidableEq

/-- The inner loop of `main` (lines 70-79): `dotsCount` is incremented for every dot contour
whose first point has a positive `pointPolygonTest` against `diceContour`.  The access
`dotContour[0]` on an empty contour gives `none`. -/
def main.countDots (diceContour : Contour) : List Contour → Nat → Option Nat
  | [], dotsCount => some dotsCount
  | [] :: _, _ => none
  | (p0 :: _) :: rest, dotsCount =>
    if cv.pointPolygonTest diceContour p0 > 0 then
      main.countDots diceContour rest (dotsCount + 1)
    else main.countDots diceContour rest dotsCount

/-- The text anchor of a die (lines 80-81): the corner `(x + width, y + height)` of its
bounding rectangle. -/
def main.textPosition (diceContour : Contour) : Point :=
  let boundingBox := cv.boundingRect diceContour
  ⟨boundingBox.x + boundingBox.width, boundingBox.y + boundingBox.height⟩

/-- The outer loop of `main` (lines 68-85).  The state is the list of the per-die labels drawn
so far (the count passed to `putText` at line 82 and its position) and `totalsDots`. -/
def main.diceLoop (dotContours : List Contour) :
    List Contour → List (Nat × Point) × Nat → Option (List (Nat × Point) × Nat)
  | [], state => some state
  | diceContour :: rest, (labels, totalsDots) =>
    match main.countDots diceContour dotContours 0 with
    | none => none
    | some dotsCount =>
      main.diceLoop dotContours rest
        (labels ++ [(dotsCount, main.textPosition diceContour)], totalsDots + dotsCount)

/-- The colour `textColor` of line 66. -/
def main.textColor : Scalar := ⟨0, 255, 0⟩

/-- Lines 65-87 of `main`: the texts drawn on the image, one `putText` with the decimal count
per die, in the order of the dice, then the `putText` of the total, `"Sum N"`. -/
def main.labelDice (diceContours dotContours : List Contour) : Option (List Event) :=
  match main.diceLoop dotContours diceContours ([], 0) with
  | none => none
  | some (labels, totalsDots) =>
    some (labels.map (fun l => Event.putText (toString l.1) l.2 1 main.textColor)
      ++ [Event.putText ("Sum " ++ toString totalsDots) ⟨10, 35⟩ 1.5 main.textColor])

/-- Lines 59-93 of `main`: the two area classifications of the traced contours, the texts,
and the outlines of the dice and of the dots. -/
def main.annotate (contours : List Contour) : Option (List Event) :=
  let diceContours := FilterContoursByArea contours 5000 30000
  let dotContours := FilterContoursByArea contours 200 1000
  match main.labelDice diceContours dotContours with
  | none => none
  | some texts =>
    some (texts ++ [Event.drawContours diceContours ⟨0, 255, 0⟩ 3,
      Event.drawContours dotContours ⟨255, 0, 0⟩ 3])

/-- The function `main` (lines 28-104).  `argv` is the argument vector, `argc` its length. -/
def main {Mat : Type} (env : Env Mat) (argv : List String) : Option Outcome :=
  if h : argv.length ≠ 3 then
    some ⟨-1, [Event.print " Usage: CountDice.exe ImageToProcessPath OutputImagePath"]⟩
  else
    match env.imread (argv.get ⟨1, by omega⟩) with
    | none =>
      some ⟨-1, [Event.imread (argv.get ⟨1, by omega⟩), Event.print "Could not open the image"]⟩
    | some colorImage =>
      let threholdedImage := env.threshold (env.cvtColor colorImage) 160 255
      let contours := env.findContours threholdedImage
      match main.annotate contours with
      | none => none
      | some drawn =>
        some ⟨0, [Event.imread (argv.get ⟨1, by omega⟩), Event.cvtColor,
            Event.threshold 160 255, Event.findContours] ++ drawn ++
          [Event.imwrite (argv.get ⟨2, by omega⟩), Event.namedWindow "Labeled Image",
            Event.imshow "Labeled Image", Event.waitKey 0]⟩

/-! ## Vocabulary of the properties -/

/-- The condition of line 76 on a pair (die, dot): the dot contour has a first point and its
`pointPolygonTest` against the die contour is strictly positive. -/
def dotInsideDie (diceContour dotContour : Contour) : Bool :=
  match dotContour with
  | [] => false
  | p0 :: _ => decide (cv.pointPolygonTest diceContour p0 > 0)

/-- Events that are part of the processing of an image: contour extraction, annotation and
the write of the output file. -/
def Event.isProcessing : Event → Bool
  | Event.findContours => true
  | Event.putText _ _ _ _ => true
  | Event.drawContours _ _ _ => true
  | Event.imwrite _ => true
  | _ => false

/-- The events that draw a text. -/
def Event.isText : Event → Bool
  | Event.putText _ _ _ _ => true
  | _ => false

/-! ## Example scene -/

/-- The four corners of the upright square with top-left corner `(x, y)`. -/
def square (x y side : Int) : Contour :=
  [⟨x, y⟩, ⟨x + side, y⟩, ⟨x + side, y + side⟩, ⟨x, y + side⟩]

/-- A die of area 10000. -/
def dieSquare : Contour := square 0 0 100

/-- Three dots of area 289 inside `dieSquare`. -/
def dotSquares : List Contour := [square 10 10 17, square 40 40 17, square 70 70 17]

/-- The contours of a mask with one die and three dots on it. -/
def scene : List Contour := dieSquare :: dotSquares

/-- An environment in which every file but `missing.png` decodes and in which the contour
tracer returns `contours`. -/
def sceneEnv (contours : List Contour) : Env Unit where
  imread := fun filename => if filename = "missing.png" then none else some ()
  cvtColor := id
  threshold := fun m _ _ => m
  findContours := fun _ => contours

/-! ## The area filter -/

/-- The loop of `FilterContoursByArea` started from any `filtered` appends the qualifying
contours in their order. -/
theorem filter_foldl_acc (minArea maxArea : ℚ) (cs acc : List Contour) :
    cs.foldl
      (fun filtered contour =>
        let area := cv.contourArea contour
        if area < maxArea ∧ area > minArea then filtered ++ [contour] else filtered)
      acc
      = acc ++ cs.filter
          (fun c => decide (minArea < cv.contourArea c ∧ cv.contourArea c < maxArea)) := by
  induction cs generalizing acc with
  | nil => simp
  | cons c cs ih =>
    simp only [List.foldl_cons, List.filter_cons]
    by_cases h : cv.contourArea c < maxArea ∧ cv.contourArea c > minArea
    · have h2 : minArea < cv.contourArea c ∧ cv.contourArea c < maxArea := ⟨h.2, h.1⟩
      simp only [h, h2, and_self, if_true, decide_True]
      rw [ih]; simp
    · have h2 : ¬ (minArea < cv.contourArea c ∧ cv.contourArea c < maxArea) :=
        fun h3 => h ⟨h3.2, h3.1⟩
      simp only [h, h2, if_false, decide_False]
      rw [ih]; simp

theorem FilterContoursByArea_eq_filter (cs : List Contour) (minArea maxArea : ℚ) :
    FilterContoursByArea cs minArea maxArea =
      cs.filter (fun c => decide (minArea < cv.contourArea c ∧ cv.contourArea c < maxArea)) := by
  unfold FilterContoursByArea
  rw [filter_foldl_acc]; simp

theorem mem_FilterContoursByArea (cs : List Contour) (minArea maxArea : ℚ) (c : Contour) :
    c ∈ FilterContoursByArea cs minArea maxArea ↔
      c ∈ cs ∧ minArea < cv.contourArea c ∧ cv.contourArea c < maxArea := by
  rw [FilterContoursByArea_eq_filter, List.mem_filter]
  simp only [decide_eq_true_eq]

theorem contourArea_nil : cv.contourArea [] = 0 := rfl

/-- The area of `square x y side` is `side ^ 2`. -/
theorem contourArea_square (x y side : Int) :
    cv.contourArea (square x y side) = (side : ℚ) ^ 2 := by
  simp only [cv.contourArea, square, List.getLast?, List.getLast, cv.contourArea.accumulate]
  push_cast
  have h : ((0 : ℚ) + (x * y - (y + side) * x) + (x * y - y * (x + side))
      + ((x + side) * (y + side) - y * (x + side))
      + ((x + side) * (y + side) - (y + side) * x)) * (1 / 2) = (side : ℚ) ^ 2 := by ring
  rw [h]; exact abs_of_nonneg (sq_nonneg _)

theorem nonempty_of_mem_dots (contours : List Contour) (c : Contour)
    (h : c ∈ FilterContoursByArea contours 200 1000) : c ≠ [] := by
  rintro rfl
  have h2 := ((mem_FilterContoursByArea _ _ _ _).1 h).2.1
  rw [contourArea_nil] at h2
  norm_num at h2

/-- Claim C1: `FilterContoursByArea` returns exactly the contours with
`minArea < area < maxArea`, in their order: a contour is returned if and only if it is an
input contour with its area strictly between the bounds, an input contour that is not
returned has `area <= minArea` or `area >= maxArea`, and a contour whose area equals a bound
is not returned. -/
theorem C1_filter_exact (contours : List Contour) (minArea maxArea : ℚ) :
    FilterContoursByArea contours minArea maxArea =
        contours.filter
          (fun c => decide (minArea < cv.contourArea c ∧ cv.contourArea c < maxArea)) ∧
    (∀ c, c ∈ FilterContoursByArea contours minArea maxArea ↔
        c ∈ contours ∧ minArea < cv.contourArea c ∧ cv.contourArea c < maxArea) ∧
    (∀ c, c ∈ contours → c ∉ FilterContoursByArea contours minArea maxArea →
        cv.contourArea c ≤ minArea ∨ cv.contourArea c ≥ maxArea) ∧
    (∀ c, cv.contourArea c = minArea ∨ cv.contourArea c = maxArea →
        c ∉ FilterContoursByArea contours minArea maxArea) := by
  refine ⟨FilterContoursByArea_eq_filter _ _ _, mem_FilterContoursByArea _ _ _, ?_, ?_⟩
  · intro c hc hn
    rw [mem_FilterContoursByArea] at hn
    by_contra hcon
    push_neg at hcon
    exact hn ⟨hc, hcon.1, hcon.2⟩
  · intro c hc hm
    rw [mem_FilterContoursByArea] at hm
    rcases hc with hc | hc
    · exact absurd hm.2.1 (by rw [hc]; exact lt_irrefl _)
    · exact absurd hm.2.2 (by rw [hc]; exact lt_irrefl _)

/-- Claim C1 at the example scene with the bounds 289 and 10000, the areas of its dots and
of its die: nothing is returned, and every contour has its area on a bound. -/
theorem C1_filter_exact_witness :
    FilterContoursByArea scene 289 10000 = [] ∧
    (∀ c, c ∈ scene → cv.contourArea c ≤ 289 ∨ cv.contourArea c ≥ 10000) := by
  have hnot : ∀ c, c ∈ scene → c ∉ FilterContoursByArea scene 289 10000 := by
    intro c hc
    apply (C1_filter_exact scene 289 10000).2.2.2
    simp only [scene, dieSquare, dotSquares, List.mem_cons, List.mem_singleton,
      List.not_mem_nil, or_false] at hc
    rcases hc with rfl | rfl | rfl | rfl <;> rw [contourArea_square] <;> norm_num
  refine ⟨?_, fun c hc => (C1_filter_exact scene 289 10000).2.2.1 c hc (hnot c hc)⟩
  rw [(C1_filter_exact scene 289 10000).1]
  exact List.filter_eq_nil_iff.2 (fun c hc => by
    have := hnot c hc
    rw [mem_FilterContoursByArea] at this
    simpa using fun h1 => (not_and.1 this hc) h1)

/-- Claim C4: the die set (area in (5000, 30000)) and the dot set (area in (200, 1000)) of
any contour list are disjoint, and a contour can be in neither. -/
theorem C4_dice_dots_disjoint :
    (∀ contours : List Contour, ∀ c,
      ¬ (c ∈ FilterContoursByArea contours 5000 30000 ∧
         c ∈ FilterContoursByArea contours 200 1000)) ∧
    (∃ (contours : List Contour) (c : Contour), c ∈ contours ∧
      c ∉ FilterContoursByArea contours 5000 30000 ∧
      c ∉ FilterContoursByArea contours 200 1000) := by
  constructor
  · rintro contours c ⟨h1, h2⟩
    have a1 := ((mem_FilterContoursByArea _ _ _ _).1 h1).2.1
    have a2 := ((mem_FilterContoursByArea _ _ _ _).1 h2).2.2
    linarith
  · refine ⟨[square 0 0 10], square 0 0 10, by simp, ?_, ?_⟩
    · rw [mem_FilterContoursByArea, contourArea_square]; norm_num
    · rw [mem_FilterContoursByArea, contourArea_square]; norm_num

/-- Claim C4 at the example scene: its die is no dot and its dots are no dice. -/
theorem C4_dice_dots_disjoint_witness :
    dieSquare ∈ FilterContoursByArea scene 5000 30000 ∧
    dieSquare ∉ FilterContoursByArea scene 200 1000 := by
  have hd : dieSquare ∈ FilterContoursByArea scene 5000 30000 := by
    rw [mem_FilterContoursByArea, dieSquare, contourArea_square]
    exact ⟨by simp [scene, dieSquare], by norm_num, by norm_num⟩
  exact ⟨hd, fun h => C4_dice_dots_disjoint.1 scene dieSquare ⟨hd, h⟩⟩

/-- Claim C8: the area filter is idempotent: applied with the same bounds to its own output
it returns that output unchanged; two runs on the same input return the same contours, and
runs on two orderings of the same input return the same contours up to order. -/
theorem C8_filter_idempotent (contours : List Contour) (minArea maxArea : ℚ) :
    FilterContoursByArea (FilterContoursByArea contours minArea maxArea) minArea maxArea
        = FilterContoursByArea contours minArea maxArea ∧
    (∀ again : List Contour, again = contours →
      FilterContoursByArea again minArea maxArea
        = FilterContoursByArea contours minArea maxArea) ∧
    (∀ reordered : List Contour, reordered.Perm contours →
      (FilterContoursByArea reordered minArea maxArea).Perm
        (FilterContoursByArea contours minArea maxArea)) := by
  refine ⟨?_, ?_, ?_⟩
  · simp only [FilterContoursByArea_eq_filter, List.filter_filter, Bool.and_self]
  · rintro again rfl; rfl
  · intro reordered h
    simp only [FilterContoursByArea_eq_filter]
    exact h.filter _

/-- Claim C8 at the example scene: filtering its dots again returns the three dots. -/
theorem C8_filter_idempotent_witness :
    FilterContoursByArea (FilterContoursByArea scene 200 1000) 200 1000 = dotSquares := by
  rw [(C8_filter_idempotent scene 200 1000).1, FilterContoursByArea_eq_filter]
  simp [scene, dieSquare, dotSquares, List.filter, contourArea_square]
  norm_num

/-! ## The containment matcher -/

/-- The inner loop on dot contours that all have a first point: it terminates normally and
adds the number of dots inside the die to `dotsCount`. -/
theorem countDots_eq (die : Contour) (dots : List Contour) (hne : ∀ d ∈ dots, d ≠ [])
    (n : Nat) :
    main.countDots die dots n = some (n + dots.countP (dotInsideDie die)) := by
  induction dots generalizing n with
  | nil => simp [main.countDots]
  | cons dot rest ih =>
    have hrest : ∀ d ∈ rest, d ≠ [] := fun d hd => hne d (List.mem_cons_of_mem _ hd)
    cases dot with
    | nil => exact absurd rfl (hne [] (List.mem_cons_self _ _))
    | cons p0 ps =>
      by_cases h : cv.pointPolygonTest die p0 > 0
      · simp only [main.countDots, h, if_true, ih hrest, List.countP_cons, dotInsideDie,
          decide_True]
        congr 1; omega
      · simp only [main.countDots, h, if_false, ih hrest, List.countP_cons, dotInsideDie,
          decide_False]
        simp

/-- The outer loop on dot contours that all have a first point: it terminates normally,
appends one label per die and adds the per-die counts to `totalsDots`. -/
theorem diceLoop_eq (dots : List Contour) (hne : ∀ d ∈ dots, d ≠ []) (dice : List Contour)
    (labels : List (Nat × Point)) (total : Nat) :
    main.diceLoop dots dice (labels, total) =
      some (labels ++ dice.map
              (fun die => (dots.countP (dotInsideDie die), main.textPosition die)),
            total + (dice.map (fun die => dots.countP (dotInsideDie die))).sum) := by
  induction dice generalizing labels total with
  | nil => simp [main.diceLoop]
  | cons die rest ih =>
    simp only [main.diceLoop, countDots_eq die dots hne 0, ih, List.map_cons, List.sum_cons,
      Nat.zero_add, List.append_assoc, List.singleton_append, Nat.add_assoc]

/-- The outer loop as `main` starts it, with no label and the total 0. -/
theorem diceLoop_start (dots : List Contour) (hne : ∀ d ∈ dots, d ≠ []) (dice : List Contour) :
    main.diceLoop dots dice ([], 0) =
      some (dice.map (fun die => (dots.countP (dotInsideDie die), main.textPosition die)),
            (dice.map (fun die => dots.countP (dotInsideDie die))).sum) := by
  rw [diceLoop_eq dots hne, List.nil_append, Nat.zero_add]

/-- The counters stay within the product of the lengths of the two contour lists: `int`
cannot overflow when that product is below `2 ^ 31`. -/
theorem diceLoop_total_le (dots dice : List Contour) :
    (dice.map (fun die => dots.countP (dotInsideDie die))).sum ≤ dice.length * dots.length := by
  induction dice with
  | nil => simp
  | cons die rest ih =>
    have h := List.countP_le_length (dotInsideDie die) (l := dots)
    simp only [List.map_cons, List.sum_cons, List.length_cons, Nat.succ_mul]
    omega

/-- A count is the sum of the indicator of what is counted. -/
theorem sum_indicator_eq_countP (dice : List Contour) (q : Contour → Bool) :
    (dice.map (fun die => if q die = true then 1 else 0)).sum = dice.countP q := by
  induction dice with
  | nil => simp
  | cons die dice ih => simp only [List.map_cons, List.sum_cons, List.countP_cons, ih]; omega

/-- Counting the pairs (die, dot) with the dot inside the die, die by die or dot by dot. -/
theorem sum_countP_comm (dice dots : List Contour) :
    (dice.map (fun die => dots.countP (dotInsideDie die))).sum =
      (dots.map (fun dot => dice.countP (fun die => dotInsideDie die dot))).sum := by
  induction dots with
  | nil => simp
  | cons dot rest ih =>
    simp only [List.countP_cons, List.map_cons, List.sum_cons]
    rw [List.sum_map_add, ih, Nat.add_comm, sum_indicator_eq_countP]

/-- When every dot is inside at most one die, the pairs are as many as the dots that are
inside some die. -/
theorem sum_countP_of_le_one (dice dots : List Contour)
    (h : ∀ dot ∈ dots, dice.countP (fun die => dotInsideDie die dot) ≤ 1) :
    (dots.map (fun dot => dice.countP (fun die => dotInsideDie die dot))).sum =
      dots.countP (fun dot => dice.any (fun die => dotInsideDie die dot)) := by
  induction dots with
  | nil => simp
  | cons dot rest ih =>
    have h1 := h dot (List.mem_cons_self _ _)
    have ih1 := ih (fun d hd => h d (List.mem_cons_of_mem _ hd))
    simp only [List.map_cons, List.sum_cons, List.countP_cons, ih1]
    by_cases hany : dice.any (fun die => dotInsideDie die dot) = true
    · have hpos : 0 < dice.countP (fun die => dotInsideDie die dot) := by
        rw [List.countP_pos_iff]
        simpa using hany
      simp only [hany, if_true]; omega
    · have hzero : dice.countP (fun die => dotInsideDie die dot) = 0 := by
        rw [List.countP_eq_zero]
        simpa using hany
      simp only [hany, hzero]; simp

/-- The dots of any contour list all have a first point, so the texts are always drawn. -/
theorem labelDice_dots (contours dice : List Contour) :
    ∃ texts, main.labelDice dice (FilterContoursByArea contours 200 1000) = some texts := by
  simp only [main.labelDice, diceLoop_eq _ (nonempty_of_mem_dots contours)]
  exact ⟨_, rfl⟩

theorem annotate_isSome (contours : List Contour) :
    ∃ drawn, main.annotate contours = some drawn := by
  obtain ⟨texts, h⟩ := labelDice_dots contours (FilterContoursByArea contours 5000 30000)
  simp only [main.annotate, h]
  exact ⟨_, rfl⟩

/-- Claim C2: for dice and dot contours (each dot with a first point), the matcher labels
every die with the number of dot contours whose first point has a strictly positive
`pointPolygonTest` against that die; a dot whose first point has the result `0` (on the
boundary) or a negative result (outside) is not counted.  The dot contours that `main`
passes, those of the area filter, all have a first point. -/
theorem C2_count_strictly_inside (diceContours dotContours : List Contour)
    (hne : ∀ d ∈ dotContours, d ≠ []) :
    (∃ totalsDots, main.diceLoop dotContours diceContours ([], 0) =
      some (diceContours.map
              (fun die => (dotContours.countP (dotInsideDie die), main.textPosition die)),
            totalsDots)) ∧
    (∀ die n, main.countDots die dotContours n =
      some (n + dotContours.countP (dotInsideDie die))) ∧
    (∀ die p0 ps, dotInsideDie die (p0 :: ps) = true ↔ 0 < cv.pointPolygonTest die p0) ∧
    (∀ die p0 ps rest n, cv.pointPolygonTest die p0 ≤ 0 →
      main.countDots die ((p0 :: ps) :: rest) n = main.countDots die rest n) ∧
    (∀ contours die,
      main.countDots die (FilterContoursByArea contours 200 1000) 0 =
        some ((FilterContoursByArea contours 200 1000).countP (dotInsideDie die))) := by
  refine ⟨⟨_, diceLoop_start _ hne _⟩, fun die n => countDots_eq die _ hne n, ?_, ?_, ?_⟩
  · intro die p0 ps
    simp [dotInsideDie]
  · intro die p0 ps rest n h
    have h2 : ¬ cv.pointPolygonTest die p0 > 0 := not_lt.2 h
    simp only [main.countDots, h2, if_false]
  · intro contours die
    rw [countDots_eq die _ (nonempty_of_mem_dots contours) 0, Nat.zero_add]

/-- Claim C2 at the example scene: one die square of area 10000 with three dot squares (of
side 17, area 289) inside it is classified as one die and three dots and gives the count 3
for that die and the total 3; a dot whose first point is on the boundary of the die or
outside it is not counted. -/
theorem C2_count_strictly_inside_witness :
    (∀ d ∈ dotSquares, d ≠ []) ∧
    cv.contourArea dieSquare = 10000 ∧
    (∀ d ∈ dotSquares, cv.contourArea d = 289) ∧
    FilterContoursByArea scene 5000 30000 = [dieSquare] ∧
    FilterContoursByArea scene 200 1000 = dotSquares ∧
    main.diceLoop dotSquares [dieSquare] ([], 0) = some ([(3, ⟨101, 101⟩)], 3) ∧
    main.countDots dieSquare dotSquares 0 = some 3 ∧
    cv.pointPolygonTest dieSquare ⟨0, 50⟩ = 0 ∧
    cv.pointPolygonTest dieSquare ⟨150, 150⟩ = -1 ∧
    main.countDots dieSquare [square 0 50 17, square 150 150 17] 0 = some 0 := by
  have hne : ∀ d ∈ dotSquares, d ≠ [] := by decide
  have h := C2_count_strictly_inside [dieSquare] dotSquares hne
  refine ⟨hne, ?_, ?_, ?_, ?_, by decide, ?_, by decide, by decide, by decide⟩
  · rw [dieSquare, contourArea_square]; norm_num
  · intro d hd
    simp only [dotSquares, List.mem_cons, List.mem_singleton, List.not_mem_nil, or_false] at hd
    rcases hd with rfl | rfl | rfl <;> rw [contourArea_square] <;> norm_num
  · rw [FilterContoursByArea_eq_filter]
    simp [scene, dieSquare, dotSquares, List.filter, contourArea_square]
    norm_num
  · rw [FilterContoursByArea_eq_filter]
    simp [scene, dieSquare, dotSquares, List.filter, contourArea_square]
    norm_num
  · rw [h.2.1 dieSquare 0]
    decide

/-- Claim C3: the number in the text `"Sum N"` is the sum over the dice of the per-die counts
of the matcher (the counts of the per-die texts), and the text is `"Sum 0"` when there is no
die, whatever the dot contours. -/
theorem C3_total_is_sum (diceContours dotContours : List Contour)
    (hne : ∀ d ∈ dotContours, d ≠ []) :
    (∃ labels totalsDots,
      main.diceLoop dotContours diceContours ([], 0) = some (labels, totalsDots) ∧
      List.Forall₂ (fun die label => main.countDots die dotContours 0 = some label.1)
        diceContours labels ∧
      totalsDots = (labels.map Prod.fst).sum ∧
      main.labelDice diceContours dotContours =
        some (labels.map (fun l => Event.putText (toString l.1) l.2 1 main.textColor)
          ++ [Event.putText ("Sum " ++ toString totalsDots) ⟨10, 35⟩ 1.5 main.textColor])) ∧
    (∀ anyDots : List Contour,
      main.labelDice [] anyDots =
        some [Event.putText "Sum 0" ⟨10, 35⟩ 1.5 main.textColor]) := by
  refine ⟨⟨_, _, diceLoop_start _ hne _, ?_, ?_, ?_⟩, fun _ => rfl⟩
  · rw [List.forall₂_map_right_iff, List.forall₂_same]
    intro die _
    rw [countDots_eq die _ hne 0]; simp
  · simp [Function.comp_def]
  · simp only [main.labelDice, diceLoop_start _ hne]

/-- Claim C3 at the example scene: the texts are `"3"` at the die and `"Sum 3"`. -/
theorem C3_total_is_sum_witness :
    (∀ d ∈ dotSquares, d ≠ []) ∧
    main.labelDice [dieSquare] dotSquares =
      some [Event.putText "3" ⟨101, 101⟩ 1 main.textColor,
        Event.putText "Sum 3" ⟨10, 35⟩ 1.5 main.textColor] ∧
    main.labelDice [] dotSquares = some [Event.putText "Sum 0" ⟨10, 35⟩ 1.5 main.textColor] := by
  have hne : ∀ d ∈ dotSquares, d ≠ [] := by decide
  obtain ⟨⟨labels, total, hloop, -, -, htexts⟩, hnodie⟩ :=
    C3_total_is_sum [dieSquare] dotSquares hne
  have hval : main.diceLoop dotSquares [dieSquare] ([], 0) = some ([(3, ⟨101, 101⟩)], 3) := by
    decide
  rw [hval] at hloop
  simp only [Option.some.injEq, Prod.mk.injEq] at hloop
  obtain ⟨rfl, rfl⟩ := hloop
  exact ⟨hne, htexts, hnodie dotSquares⟩

/-- Claim C9: the access `dotContour[0]` is always in range: an empty contour has area 0, so
every element of `FilterContoursByArea contours 200 1000` has a first point, and the run of
the matcher on the classified contours never reaches an access out of range. -/
theorem C9_dot_contours_nonempty (contours : List Contour) :
    cv.contourArea [] = 0 ∧
    (∀ c ∈ FilterContoursByArea contours 200 1000, c ≠ []) ∧
    (∀ die, ∃ dotsCount,
      main.countDots die (FilterContoursByArea contours 200 1000) 0 = some dotsCount) ∧
    (∃ drawn, main.annotate contours = some drawn) :=
  ⟨contourArea_nil, nonempty_of_mem_dots contours,
    fun die => ⟨_, countDots_eq die _ (nonempty_of_mem_dots contours) 0⟩,
    annotate_isSome contours⟩

/-- Claim C9 at a contour list with empty point sequences: they are not among the dots. -/
theorem C9_dot_contours_nonempty_witness :
    square 10 10 17 ∈ FilterContoursByArea ([] :: square 10 10 17 :: [[]]) 200 1000 ∧
    square 10 10 17 ≠ [] := by
  have hmem : square 10 10 17 ∈ FilterContoursByArea ([] :: square 10 10 17 :: [[]]) 200 1000 := by
    rw [mem_FilterContoursByArea, contourArea_square]
    exact ⟨by simp, by norm_num, by norm_num⟩
  exact ⟨hmem, (C9_dot_contours_nonempty ([] :: square 10 10 17 :: [[]])).2.1 _ hmem⟩

/-- Claim C10: when the first point of every dot contour is strictly inside at most one die
contour, the grand total is the number of dot contours whose first point is strictly inside
some die contour, and so at most the number of dot contours. -/
theorem C10_no_double_counting (diceContours dotContours : List Contour)
    (hne : ∀ d ∈ dotContours, d ≠ [])
    (hone : ∀ dot ∈ dotContours,
      diceContours.countP (fun die => dotInsideDie die dot) ≤ 1) :
    ∃ labels totalsDots,
      main.diceLoop dotContours diceContours ([], 0) = some (labels, totalsDots) ∧
      totalsDots =
        dotContours.countP (fun dot => diceContours.any (fun die => dotInsideDie die dot)) ∧
      totalsDots ≤ dotContours.length := by
  refine ⟨_, _, diceLoop_eq _ hne _ _ _, ?_, ?_⟩
  · rw [Nat.zero_add, sum_countP_comm, sum_countP_of_le_one _ _ hone]
  · rw [Nat.zero_add, sum_countP_comm, sum_countP_of_le_one _ _ hone]
    exact List.countP_le_length _

/-- Claim C10 at two dice that do not overlap, with three dots in the first, one dot in the
second and one dot outside both: the total is 4, of 5 dots. -/
theorem C10_no_double_counting_witness :
    ∃ labels,
      main.diceLoop (dotSquares ++ [square 210 10 17, square 400 400 17])
        [dieSquare, square 200 0 100] ([], 0) = some (labels, 4) := by
  obtain ⟨labels, total, hloop, htotal, -⟩ :=
    C10_no_double_counting [dieSquare, square 200 0 100]
      (dotSquares ++ [square 210 10 17, square 400 400 17]) (by decide) (by decide)
  have h4 : total = 4 := by rw [htotal]; decide
  exact ⟨labels, by rw [hloop, h4]⟩

/-! ## Order independence, empty results and the exit status -/

/-- The number of dots inside a die does not depend on the order of the dots. -/
theorem labels_perm (dots dots2 dice dice2 : List Contour) (hdots : dots2.Perm dots)
    (hdice : dice2.Perm dice) :
    (dice2.map (fun die => (dots2.countP (dotInsideDie die), main.textPosition die))).Perm
      (dice.map (fun die => (dots.countP (dotInsideDie die), main.textPosition die))) := by
  have hfun : (fun die => (dots2.countP (dotInsideDie die), main.textPosition die))
      = (fun die => (dots.countP (dotInsideDie die), main.textPosition die)) := by
    funext die
    rw [hdots.countP_eq]
  rw [hfun]
  exact hdice.map _

/-- Claim C6: the result does not depend on the order of the traced contours: for a
permutation of the contour list, area classification followed by the matcher gives the same
grand total, and the per-die labels (so the per-die counts) of the permuted run are a
permutation of those of the original run. -/
theorem C6_order_independent (contours permuted : List Contour)
    (hperm : permuted.Perm contours) :
    ∃ labels labels2 totalsDots,
      main.diceLoop (FilterContoursByArea contours 200 1000)
        (FilterContoursByArea contours 5000 30000) ([], 0) = some (labels, totalsDots) ∧
      main.diceLoop (FilterContoursByArea permuted 200 1000)
        (FilterContoursByArea permuted 5000 30000) ([], 0) = some (labels2, totalsDots) ∧
      labels2.Perm labels ∧
      (labels2.map Prod.fst).Perm (labels.map Prod.fst) := by
  have hdots : (FilterContoursByArea permuted 200 1000).Perm
      (FilterContoursByArea contours 200 1000) := by
    simp only [FilterContoursByArea_eq_filter]; exact hperm.filter _
  have hdice : (FilterContoursByArea permuted 5000 30000).Perm
      (FilterContoursByArea contours 5000 30000) := by
    simp only [FilterContoursByArea_eq_filter]; exact hperm.filter _
  have hlabels := labels_perm _ _ _ _ hdots hdice
  have hsum : ((FilterContoursByArea permuted 5000 30000).map
        (fun die => (FilterContoursByArea permuted 200 1000).countP (dotInsideDie die))).sum
      = ((FilterContoursByArea contours 5000 30000).map
        (fun die => (FilterContoursByArea contours 200 1000).countP (dotInsideDie die))).sum := by
    have h := (hlabels.map Prod.fst).sum_eq
    simpa [Function.comp_def] using h
  refine ⟨_, _, _, diceLoop_start _ (nonempty_of_mem_dots contours) _, ?_, hlabels,
    hlabels.map Prod.fst⟩
  rw [diceLoop_start _ (nonempty_of_mem_dots permuted), hsum]

/-- Claim C6 at the example scene traced in the opposite order: the label of the die is
`3` at the same position and the total is 3 in both runs. -/
theorem C6_order_independent_witness :
    scene.reverse.Perm scene ∧
    ∃ labels2,
      main.diceLoop (FilterContoursByArea scene.reverse 200 1000)
        (FilterContoursByArea scene.reverse 5000 30000) ([], 0) = some (labels2, 3) ∧
      labels2.Perm [(3, ⟨101, 101⟩)] := by
  obtain ⟨labels, labels2, total, h1, h2, hp, -⟩ :=
    C6_order_independent scene scene.reverse (List.reverse_perm scene)
  have hdots : FilterContoursByArea scene 200 1000 = dotSquares := by
    rw [FilterContoursByArea_eq_filter]
    simp [scene, dieSquare, dotSquares, List.filter, contourArea_square]
    norm_num
  have hdice : FilterContoursByArea scene 5000 30000 = [dieSquare] := by
    rw [FilterContoursByArea_eq_filter]
    simp [scene, dieSquare, dotSquares, List.filter, contourArea_square]
    norm_num
  have hval : main.diceLoop dotSquares [dieSquare] ([], 0) = some ([(3, ⟨101, 101⟩)], 3) := by
    decide
  rw [hdots, hdice, hval] at h1
  simp only [Option.some.injEq, Prod.mk.injEq] at h1
  obtain ⟨rfl, rfl⟩ := h1
  exact ⟨List.reverse_perm scene, labels2, h2, hp⟩

/-- Claim C7: empty results are not errors.  When no contour has its area strictly between
200 and 1000, every die is labelled with the count 0 and the grand total is 0.  For the empty
contour list both classified sets are empty, no per-die text is drawn, and the only text
drawn, by `main` too, is `"Sum 0"`. -/
theorem C7_empty_results (contours : List Contour)
    (hnone : ∀ c ∈ contours, ¬ (200 < cv.contourArea c ∧ cv.contourArea c < 1000)) :
    (∃ labels,
      main.diceLoop (FilterContoursByArea contours 200 1000)
        (FilterContoursByArea contours 5000 30000) ([], 0) = some (labels, 0) ∧
      labels.length = (FilterContoursByArea contours 5000 30000).length ∧
      (∀ l ∈ labels, l.1 = 0) ∧
      ∃ texts, main.labelDice (FilterContoursByArea contours 5000 30000)
          (FilterContoursByArea contours 200 1000)
        = some (texts ++ [Event.putText "Sum 0" ⟨10, 35⟩ 1.5 main.textColor])) ∧
    FilterContoursByArea [] 5000 30000 = [] ∧
    FilterContoursByArea [] 200 1000 = [] ∧
    main.labelDice [] [] = some [Event.putText "Sum 0" ⟨10, 35⟩ 1.5 main.textColor] ∧
    main.annotate [] = some [Event.putText "Sum 0" ⟨10, 35⟩ 1.5 main.textColor,
      Event.drawContours [] ⟨0, 255, 0⟩ 3, Event.drawContours [] ⟨255, 0, 0⟩ 3] ∧
    (∀ (Mat : Type) (env : Env Mat) (prog inPath outPath : String) (img : Mat),
      env.imread inPath = some img →
      env.findContours (env.threshold (env.cvtColor img) 160 255) = [] →
      ∃ out, main env [prog, inPath, outPath] = some out ∧ out.exitCode = 0 ∧
        out.log.filter Event.isText
          = [Event.putText "Sum 0" ⟨10, 35⟩ 1.5 main.textColor]) := by
  have hdots : FilterContoursByArea contours 200 1000 = [] := by
    rw [FilterContoursByArea_eq_filter, List.filter_eq_nil_iff]
    intro c hc
    simpa using not_and.1 (hnone c hc)
  have hloop : main.diceLoop [] (FilterContoursByArea contours 5000 30000) ([], 0)
      = some ((FilterContoursByArea contours 5000 30000).map
          (fun die => (0, main.textPosition die)), 0) := by
    rw [diceLoop_eq [] (by simp)]; simp
  refine ⟨?_, rfl, rfl, rfl, rfl, ?_⟩
  · rw [hdots]
    refine ⟨_, hloop, by simp, ?_, ?_⟩
    · intro l hl
      simp only [List.mem_map] at hl
      obtain ⟨die, -, rfl⟩ := hl
      rfl
    · simp only [main.labelDice, hloop]
      exact ⟨_, rfl⟩
  · intro Mat env prog inPath outPath img hread hfind
    have hann : main.annotate [] = some [Event.putText "Sum 0" ⟨10, 35⟩ 1.5 main.textColor,
      Event.drawContours [] ⟨0, 255, 0⟩ 3, Event.drawContours [] ⟨255, 0, 0⟩ 3] := rfl
    simp [main, hread, hfind, hann, Event.isProcessing, Event.isText, List.filter]

/-- Claim C7 at a mask with one large region and no small region: one die, labelled 0,
and the total 0. -/
theorem C7_empty_results_witness :
    (∀ c ∈ [dieSquare], ¬ (200 < cv.contourArea c ∧ cv.contourArea c < 1000)) ∧
    FilterContoursByArea [dieSquare] 5000 30000 = [dieSquare] ∧
    ∃ labels,
      main.diceLoop (FilterContoursByArea [dieSquare] 200 1000)
        (FilterContoursByArea [dieSquare] 5000 30000) ([], 0) = some (labels, 0) ∧
      labels.length = 1 ∧ ∀ l ∈ labels, l.1 = 0 := by
  have hnone : ∀ c ∈ [dieSquare], ¬ (200 < cv.contourArea c ∧ cv.contourArea c < 1000) := by
    intro c hc
    rw [List.mem_singleton] at hc
    rw [hc, dieSquare, contourArea_square]
    norm_num
  have hdice : FilterContoursByArea [dieSquare] 5000 30000 = [dieSquare] := by
    rw [FilterContoursByArea_eq_filter]
    simp [dieSquare, List.filter, contourArea_square]
    norm_num
  obtain ⟨labels, hloop, hlen, hzero, -⟩ := (C7_empty_results [dieSquare] hnone).1
  rw [hdice] at hlen
  exact ⟨hnone, hdice, labels, hloop, hlen, hzero⟩

/-- The run of `main` on a wrong number of arguments. -/
theorem main_usage {Mat : Type} (env : Env Mat) (argv : List String) (h : argv.length ≠ 3) :
    main env argv =
      some ⟨-1, [Event.print " Usage: CountDice.exe ImageToProcessPath OutputImagePath"]⟩ := by
  simp [main, h]

/-- The run of `main` on an input file that does not decode. -/
theorem main_unreadable {Mat : Type} (env : Env Mat) (prog inPath outPath : String)
    (h : env.imread inPath = none) :
    main env [prog, inPath, outPath] =
      some ⟨-1, [Event.imread inPath, Event.print "Could not open the image"]⟩ := by
  simp [main, h]

/-- The run of `main` on an input file that decodes. -/
theorem main_success {Mat : Type} (env : Env Mat) (prog inPath outPath : String) (img : Mat)
    (h : env.imread inPath = some img) :
    ∃ drawn,
      main.annotate (env.findContours (env.threshold (env.cvtColor img) 160 255)) = some drawn ∧
      main env [prog, inPath, outPath] =
        some ⟨0, [Event.imread inPath, Event.cvtColor, Event.threshold 160 255,
            Event.findContours] ++ drawn ++
          [Event.imwrite outPath, Event.namedWindow "Labeled Image",
            Event.imshow "Labeled Image", Event.waitKey 0]⟩ := by
  obtain ⟨drawn, hdrawn⟩ :=
    annotate_isSome (env.findContours (env.threshold (env.cvtColor img) 160 255))
  exact ⟨drawn, hdrawn, by simp [main, h, hdrawn]⟩

/-- Claim C5: `main` always returns; it returns -1 exactly when the number of arguments is
not 3 or the input path does not decode as an image, and 0 otherwise; when it returns -1 it
has made no call of contour extraction, annotation or output-file write (its only calls are
the print of the usage line, or `imread` and the print of the diagnostic), and when it
returns 0 it has traced the contours and written the output file. -/
theorem C5_exit_status {Mat : Type} (env : Env Mat) (argv : List String) :
    ∃ out, main env argv = some out ∧
      (out.exitCode = -1 ↔
        (argv.length ≠ 3 ∨ ∃ path, argv[1]? = some path ∧ env.imread path = none)) ∧
      (out.exitCode ≠ -1 → out.exitCode = 0) ∧
      (out.exitCode = -1 → ∀ e ∈ out.log, e.isProcessing = false) ∧
      (argv.length ≠ 3 → out.log =
        [Event.print " Usage: CountDice.exe ImageToProcessPath OutputImagePath"]) ∧
      (∀ path, argv.length = 3 → argv[1]? = some path → env.imread path = none →
        out.log = [Event.imread path, Event.print "Could not open the image"]) ∧
      (out.exitCode = 0 → Event.findContours ∈ out.log ∧
        ∃ path, argv[2]? = some path ∧ Event.imwrite path ∈ out.log) := by
  by_cases hlen : argv.length ≠ 3
  · refine ⟨_, main_usage env argv hlen, ?_, ?_, ?_, ?_, ?_, ?_⟩
    · simp [hlen]
    · simp
    · simp [Event.isProcessing]
    · simp
    · intro path h3; exact absurd h3 hlen
    · simp
  · obtain ⟨prog, inPath, outPath, rfl⟩ := List.length_eq_three.1 (not_not.1 hlen)
    cases hread : env.imread inPath with
    | none =>
      refine ⟨_, main_unreadable env prog inPath outPath hread, ?_, ?_, ?_, ?_, ?_, ?_⟩
      · simp [hread]
      · simp
      · simp [Event.isProcessing]
      · simp
      · intro path _ hpath _
        simp only [List.getElem?_cons_succ, List.getElem?_cons_zero, Option.some.injEq] at hpath
        rw [hpath]
      · simp
    | some img =>
      obtain ⟨drawn, -, hmain⟩ := main_success env prog inPath outPath img hread
      refine ⟨_, hmain, ?_, ?_, ?_, ?_, ?_, ?_⟩
      · simp [hread]
      · simp
      · simp
      · simp
      · intro path _ hpath hnone
        simp only [List.getElem?_cons_succ, List.getElem?_cons_zero, Option.some.injEq] at hpath
        rw [← hpath, hread] at hnone
        exact absurd hnone (by simp)
      · simp

/-- Claim C5 at three runs in the environment of the example scene: a missing argument
and an input file that does not decode return -1 after the print of one line, and a run on
an input file that decodes returns 0 after the write of the output file. -/
theorem C5_exit_status_witness :
    (∃ out, main (sceneEnv scene) ["CountDice.exe", "in.png"] = some out ∧
      out.exitCode = -1 ∧
      out.log = [Event.print " Usage: CountDice.exe ImageToProcessPath OutputImagePath"]) ∧
    (∃ out, main (sceneEnv scene) ["CountDice.exe", "missing.png", "out.png"] = some out ∧
      out.exitCode = -1 ∧
      out.log = [Event.imread "missing.png", Event.print "Could not open the image"]) ∧
    (∃ out, main (sceneEnv scene) ["CountDice.exe", "in.png", "out.png"] = some out ∧
      out.exitCode = 0 ∧ Event.imwrite "out.png" ∈ out.log) := by
  refine ⟨?_, ?_, ?_⟩
  · obtain ⟨out, hmain, hiff, -, -, hlog, -⟩ :=
      C5_exit_status (sceneEnv scene) ["CountDice.exe", "in.png"]
    exact ⟨out, hmain, hiff.2 (Or.inl (by decide)), hlog (by decide)⟩
  · obtain ⟨out, hmain, hiff, -, -, -, hlog, -⟩ :=
      C5_exit_status (sceneEnv scene) ["CountDice.exe", "missing.png", "out.png"]
    exact ⟨out, hmain, hiff.2 (Or.inr ⟨"missing.png", rfl, rfl⟩), hlog "missing.png" rfl rfl rfl⟩
  · obtain ⟨out, hmain, hiff, hzero, -, -, -, hwrite⟩ :=
      C5_exit_status (sceneEnv scene) ["CountDice.exe", "in.png", "out.png"]
    have hne : out.exitCode ≠ -1 := by
      intro h
      rcases hiff.1 h with h3 | ⟨path, hpath, hnone⟩
      · exact h3 rfl
      · simp only [List.getElem?_cons_succ, List.getElem?_cons_zero, Option.some.injEq] at hpath
        subst hpath
        simp [sceneEnv] at hnone
    obtain ⟨-, path, hpath, hmem⟩ := hwrite (hzero hne)
    simp only [List.getElem?_cons_succ, List.getElem?_cons_zero, Option.some.injEq] at hpath
    subst hpath
    exact ⟨out, hmain, hzero hne, hmem⟩

end CountDice
